import Mathlib

/- Shallow embedding of the two stock-price utilities of this repository
(stock_fetcher.py, called Provider A below, and stock_prices.py, called
Provider B), together with proofs about them.  Python strings are Lean
strings, Python ints/floats are Nat/Int/Rat, JSON-decoded Python values
are the inductive JVal, exceptions are the inductive PyExn, and the
single output file is a FS := Option String. -/

/-- Python exception kinds that the two modules can raise. -/
inductive PyExn where
  | stockPriceFetchError (msg : String)
  | valueError
  | keyError
  | typeError
  | runtimeError (msg : String)
  | jsonDecodeError
  deriving DecidableEq

/-- JSON-decoded Python values, restricted to the shapes the two modules
manipulate. JSON null decodes to Python None; `dict.get` also yields None
for an absent key, so an `Option JVal` field models absent-or-null. -/
inductive JVal where
  | null
  | bool (b : Bool)
  | num (q : ℚ)
  | str (s : String)
  deriving DecidableEq

/-- Python truthiness of the modelled values. -/
def pyTruthy : JVal → Bool
  | .null => false
  | .bool b => b
  | .num q => decide (q ≠ 0)
  | .str s => decide (s ≠ "")

/-- Result of `datetime.fromtimestamp`, modelled by the epoch value it was
built from; the local calendar fields are environment (timezone)
dependent and no claim depends on them. -/
structure DateTime where
  epoch : ℚ
  deriving DecidableEq

/-- Decimal digit characters of a natural number, most significant digit
first; fuel-indexed so that it is structurally recursive. -/
def natCharsAux : Nat → Nat → List Char
  | 0, _ => []
  | fuel+1, n =>
    if n < 10 then [Nat.digitChar n]
    else natCharsAux fuel (n / 10) ++ [Nat.digitChar (n % 10)]

/-- Decimal digit characters of a natural number (model of `str(n)`). -/
def natChars (n : Nat) : List Char := natCharsAux (n + 1) n

/-- Model of `str` on a Python int. -/
def intChars : Int → List Char
  | .ofNat n => natChars n
  | .negSucc m => '-' :: natChars (m + 1)

/-- Modelled from the spec: Python's float-to-text conversion (`str(x)`)
is an injective decimal text form (`float(str(x)) == x`); the stdlib
conversion itself is a platform primitive outside src/, so it is modelled
as the exact rational value rendered as numerator and denominator. -/
def ratChars (q : ℚ) : List Char := intChars q.num ++ '/' :: natChars q.den

/-- String form of the modelled float serialization. -/
def ratStr (q : ℚ) : String := ⟨ratChars q⟩

/-- Numeric value of a decimal digit character. -/
def digitVal? (c : Char) : Option Nat :=
  if '0' ≤ c ∧ c ≤ '9' then some (c.toNat - 48) else none

/-- Read a run of decimal digits, extending the accumulator. -/
def readNatGo : List Char → Nat → Option Nat
  | [], acc => some acc
  | c :: cs, acc =>
    match digitVal? c with
    | some d => readNatGo cs (acc * 10 + d)
    | none => none

/-- Read a nonempty all-digit string as a natural number. -/
def readNat? (cs : List Char) : Option Nat :=
  match cs with
  | [] => none
  | _ => readNatGo cs 0

/-- Read an optionally minus-signed decimal integer. -/
def readInt? (cs : List Char) : Option Int :=
  if cs.head? = some '-' then (readNat? cs.tail).map (fun n => -(n : Int))
  else (readNat? cs).map (fun n => (n : Int))

/-- Split a character list at its first slash. -/
def splitSlash : List Char → Option (List Char × List Char)
  | [] => none
  | c :: cs =>
    if c = '/' then some ([], cs)
    else (splitSlash cs).map (fun p => (c :: p.1, p.2))

/-- Inverse of the modelled float serialization. -/
def readRat? (cs : List Char) : Option ℚ :=
  match splitSlash cs with
  | none => none
  | some (numCs, denCs) =>
    match readInt? numCs, readNat? denCs with
    | some n, some d => some (mkRat n d)
    | _, _ => none

theorem digitVal?_digitChar : ∀ d : Nat, d < 10 → digitVal? (Nat.digitChar d) = some d := by
  decide

theorem digitChar_digit_range : ∀ d : Nat, d < 10 → '0' ≤ Nat.digitChar d ∧ Nat.digitChar d ≤ '9' := by
  decide

theorem natCharsAux_all_digit :
    ∀ fuel n, n < fuel → ∀ c ∈ natCharsAux fuel n, '0' ≤ c ∧ c ≤ '9' := by
  intro fuel
  induction fuel with
  | zero => intro n hn; omega
  | succ fuel ih =>
    intro n hn c hc
    by_cases h10 : n < 10
    · simp only [natCharsAux, if_pos h10, List.mem_singleton] at hc
      exact hc ▸ digitChar_digit_range n h10
    · simp only [natCharsAux, if_neg h10, List.mem_append, List.mem_singleton] at hc
      rcases hc with hc | hc
      · have hdiv : n / 10 < n := Nat.div_lt_self (by omega) (by omega)
        exact ih (n / 10) (by omega) c hc
      · exact hc ▸ digitChar_digit_range (n % 10) (Nat.mod_lt n (by omega))

theorem natCharsAux_ne_nil : ∀ fuel n, natCharsAux (fuel + 1) n ≠ [] := by
  intro fuel n
  by_cases h10 : n < 10
  · simp [natCharsAux, if_pos h10]
  · simp [natCharsAux, if_neg h10]

theorem readNatGo_append :
    ∀ xs ys acc, readNatGo (xs ++ ys) acc = (readNatGo xs acc).bind (fun a => readNatGo ys a) := by
  intro xs
  induction xs with
  | nil => intro ys acc; rfl
  | cons c cs ih =>
    intro ys acc
    simp only [List.cons_append, readNatGo]
    match h : digitVal? c with
    | some d => simp [h, ih]
    | none => simp [h]

theorem readNatGo_natCharsAux :
    ∀ fuel n, n < fuel → readNatGo (natCharsAux fuel n) 0 = some n := by
  intro fuel
  induction fuel with
  | zero => intro n hn; omega
  | succ fuel ih =>
    intro n hn
    by_cases h10 : n < 10
    · simp only [natCharsAux, if_pos h10, readNatGo, digitVal?_digitChar n h10]
      norm_num
    · have hdiv : n / 10 < n := Nat.div_lt_self (by omega) (by omega)
      have h1 : natCharsAux (fuel + 1) n = natCharsAux fuel (n / 10) ++ [Nat.digitChar (n % 10)] := by
        simp [natCharsAux, h10]
      rw [h1, readNatGo_append, ih (n / 10) (by omega), Option.some_bind]
      have h2 : readNatGo [Nat.digitChar (n % 10)] (n / 10) = some (n / 10 * 10 + n % 10) := by
        rw [readNatGo, digitVal?_digitChar (n % 10) (Nat.mod_lt n (by omega))]
        rfl
      rw [h2]
      congr 1
      omega

theorem readNat?_natChars (n : Nat) : readNat? (natChars n) = some n := by
  have hne : natChars n ≠ [] := natCharsAux_ne_nil n n
  have hrt : readNatGo (natChars n) 0 = some n :=
    readNatGo_natCharsAux (n + 1) n (Nat.lt_succ_self n)
  match h : natChars n with
  | [] => exact absurd h hne
  | c :: cs => rw [h] at hrt; exact hrt

theorem natChars_head_not_dash (n : Nat) : (natChars n).head? ≠ some '-' := by
  intro h
  have hmem : '-' ∈ natChars n := List.mem_of_mem_head? h
  have := natCharsAux_all_digit (n + 1) n (Nat.lt_succ_self n) '-' hmem
  revert this
  decide

theorem readInt?_intChars (i : Int) : readInt? (intChars i) = some i := by
  cases i with
  | ofNat n =>
    simp only [intChars, readInt?, if_neg (natChars_head_not_dash n), readNat?_natChars]
    rfl
  | negSucc m =>
    have hhead : (('-' :: natChars (m + 1)).head? = some '-') := rfl
    simp only [intChars, readInt?, hhead, if_pos rfl, List.tail_cons, readNat?_natChars]
    simp [Int.negSucc_eq]

theorem splitSlash_append (xs ys : List Char) (h : ∀ c ∈ xs, c ≠ '/') :
    splitSlash (xs ++ '/' :: ys) = some (xs, ys) := by
  induction xs with
  | nil => simp [splitSlash]
  | cons c cs ih =>
    have hc : c ≠ '/' := h c (List.mem_cons_self c cs)
    have hrest := ih (fun x hx => h x (List.mem_cons_of_mem c hx))
    simp only [List.cons_append, splitSlash, if_neg hc, List.append_eq] at hrest ⊢
    rw [hrest]
    rfl

theorem intChars_no_slash (i : Int) : ∀ c ∈ intChars i, c ≠ '/' := by
  intro c hc heq
  subst heq
  cases i with
  | ofNat n =>
    simp only [intChars, natChars] at hc
    have := natCharsAux_all_digit (n + 1) n (Nat.lt_succ_self n) '/' hc
    revert this
    decide
  | negSucc m =>
    simp only [intChars, natChars, List.mem_cons] at hc
    rcases hc with hc | hc
    · exact absurd hc (by decide)
    · have := natCharsAux_all_digit (m + 2) (m + 1) (Nat.lt_succ_self _) '/' hc
      revert this
      decide

theorem readRat?_ratChars (q : ℚ) : readRat? (ratChars q) = some q := by
  simp only [readRat?, ratChars, splitSlash_append (intChars q.num) _ (intChars_no_slash q.num),
    readInt?_intChars, readNat?_natChars]
  rw [Rat.mkRat_self]

/- CSV layer: both modules write through `csv.writer` (via `DictWriter`)
with the default dialect: comma delimiter, minimal double-quote quoting,
CRLF line terminator. The reader side is an RFC-4180 style character
machine modelling `csv.reader`. -/

/-- Parser mode of the CSV reading machine. -/
inductive CsvMode where
  | rowStart
  | cellStart
  | inPlain
  | inQuoted
  | afterQuoted
  | sawCR
  deriving DecidableEq

/-- State of the CSV reading machine: finished rows, cells of the current
row, characters of the current cell. -/
structure CsvSt where
  mode : CsvMode
  cell : List Char
  row : List String
  rows : List (List String)
  deriving DecidableEq

/-- One character step of the CSV reading machine. -/
def csvStep (st : CsvSt) (c : Char) : CsvSt :=
  match st.mode with
  | .rowStart =>
    if c = '"' then ⟨.inQuoted, [], st.row, st.rows⟩
    else if c = ',' then ⟨.cellStart, [], st.row ++ [""], st.rows⟩
    else if c = '\r' then ⟨.sawCR, [], st.row, st.rows⟩
    else if c = '\n' then ⟨.rowStart, [], [], st.rows ++ [st.row]⟩
    else ⟨.inPlain, [c], st.row, st.rows⟩
  | .cellStart =>
    if c = '"' then ⟨.inQuoted, [], st.row, st.rows⟩
    else if c = ',' then ⟨.cellStart, [], st.row ++ [""], st.rows⟩
    else if c = '\r' then ⟨.sawCR, [], st.row ++ [""], st.rows⟩
    else if c = '\n' then ⟨.rowStart, [], [], st.rows ++ [st.row ++ [""]]⟩
    else ⟨.inPlain, [c], st.row, st.rows⟩
  | .inPlain =>
    if c = ',' then ⟨.cellStart, [], st.row ++ [String.mk st.cell], st.rows⟩
    else if c = '\r' then ⟨.sawCR, [], st.row ++ [String.mk st.cell], st.rows⟩
    else if c = '\n' then ⟨.rowStart, [], [], st.rows ++ [st.row ++ [String.mk st.cell]]⟩
    else ⟨.inPlain, st.cell ++ [c], st.row, st.rows⟩
  | .inQuoted =>
    if c = '"' then ⟨.afterQuoted, st.cell, st.row, st.rows⟩
    else ⟨.inQuoted, st.cell ++ [c], st.row, st.rows⟩
  | .afterQuoted =>
    if c = '"' then ⟨.inQuoted, st.cell ++ ['"'], st.row, st.rows⟩
    else if c = ',' then ⟨.cellStart, [], st.row ++ [String.mk st.cell], st.rows⟩
    else if c = '\r' then ⟨.sawCR, [], st.row ++ [String.mk st.cell], st.rows⟩
    else if c = '\n' then ⟨.rowStart, [], [], st.rows ++ [st.row ++ [String.mk st.cell]]⟩
    else ⟨.inPlain, st.cell ++ [c], st.row, st.rows⟩
  | .sawCR =>
    if c = '\n' then ⟨.rowStart, [], [], st.rows ++ [st.row]⟩
    else if c = '"' then ⟨.inQuoted, [], [], st.rows ++ [st.row]⟩
    else if c = ',' then ⟨.cellStart, [], [""], st.rows ++ [st.row]⟩
    else if c = '\r' then ⟨.sawCR, [], [], st.rows ++ [st.row]⟩
    else ⟨.inPlain, [c], [], st.rows ++ [st.row]⟩

/-- Flush whatever the machine still holds at end of input. -/
def csvFinish (st : CsvSt) : List (List String) :=
  match st.mode with
  | .rowStart => st.rows
  | .cellStart => st.rows ++ [st.row ++ [""]]
  | .inPlain => st.rows ++ [st.row ++ [String.mk st.cell]]
  | .inQuoted => st.rows ++ [st.row ++ [String.mk st.cell]]
  | .afterQuoted => st.rows ++ [st.row ++ [String.mk st.cell]]
  | .sawCR => st.rows ++ [st.row]

/-- Initial machine state. -/
def csvInit : CsvSt := ⟨.rowStart, [], [], []⟩

/-- Parse a CSV document into its rows of cells. -/
def parseCsv (s : String) : List (List String) :=
  csvFinish (s.data.foldl csvStep csvInit)

/-- A cell needs quoting when it holds the delimiter, the quote char, or
a line-terminator char (csv QUOTE_MINIMAL). -/
def needsQuote (s : String) : Bool :=
  s.data.any (fun c => c = ',' || c = '"' || c = '\r' || c = '\n')

/-- Double every double-quote (csv doublequote escaping). -/
def escQuotes : List Char → List Char
  | [] => []
  | c :: cs => if c = '"' then '"' :: '"' :: escQuotes cs else c :: escQuotes cs

/-- Serialize one cell, quoting it only when needed. -/
def serCell (s : String) : List Char :=
  if needsQuote s then '"' :: (escQuotes s.data ++ ['"']) else s.data

/-- Serialize the cells of a row, comma separated. -/
def serCells : List String → List Char
  | [] => []
  | [s] => serCell s
  | s :: s2 :: rest => serCell s ++ ',' :: serCells (s2 :: rest)

/-- Serialize one row with its CRLF terminator. Python's csv writer
quotes a lone empty field so the line is not read back as a blank row. -/
def serRow (cells : List String) : List Char :=
  if cells = [""] then ['"', '"', '\r', '\n']
  else serCells cells ++ ['\r', '\n']

/-- Serialize a whole document. -/
def serCsv (rows : List (List String)) : List Char :=
  (rows.map serRow).flatten

/-- The document as a string. -/
def csvDoc (rows : List (List String)) : String := String.mk (serCsv rows)

theorem foldl_escQuotes (s : List Char) :
    ∀ cell row rows, List.foldl csvStep ⟨.inQuoted, cell, row, rows⟩ (escQuotes s) =
      ⟨.inQuoted, cell ++ s, row, rows⟩ := by
  induction s with
  | nil => intro cell row rows; simp [escQuotes]
  | cons c cs ih =>
    intro cell row rows
    by_cases hc : c = '"'
    · subst hc
      have he : escQuotes ('"' :: cs) = '"' :: '"' :: escQuotes cs := by
        simp [escQuotes]
      have h1 : csvStep ⟨.inQuoted, cell, row, rows⟩ '"' = ⟨.afterQuoted, cell, row, rows⟩ := rfl
      have h2 : csvStep ⟨.afterQuoted, cell, row, rows⟩ '"' =
          ⟨.inQuoted, cell ++ ['"'], row, rows⟩ := rfl
      rw [he, List.foldl_cons, List.foldl_cons, h1, h2, ih]
      simp
    · have he : escQuotes (c :: cs) = c :: escQuotes cs := by
        simp [escQuotes, hc]
      have h1 : csvStep ⟨.inQuoted, cell, row, rows⟩ c = ⟨.inQuoted, cell ++ [c], row, rows⟩ := by
        simp [csvStep, hc]
      rw [he, List.foldl_cons, h1, ih]
      simp

theorem foldl_plain (s : List Char)
    (hs : ∀ c ∈ s, ¬(c = ',' ∨ c = '"' ∨ c = '\r' ∨ c = '\n')) :
    ∀ cell row rows, List.foldl csvStep ⟨.inPlain, cell, row, rows⟩ s =
      ⟨.inPlain, cell ++ s, row, rows⟩ := by
  induction s with
  | nil => intro cell row rows; simp
  | cons c cs ih =>
    intro cell row rows
    have hc := hs c (List.mem_cons_self c cs)
    push_neg at hc
    obtain ⟨h1, h2, h3, h4⟩ := hc
    simp only [List.foldl_cons]
    have hstep : csvStep ⟨.inPlain, cell, row, rows⟩ c = ⟨.inPlain, cell ++ [c], row, rows⟩ := by
      simp [csvStep, h1, h3, h4]
    rw [hstep, ih (fun x hx => hs x (List.mem_cons_of_mem c hx))]
    simp

theorem not_needsQuote_mem {s : String} (h : needsQuote s = false) :
    ∀ c ∈ s.data, ¬(c = ',' ∨ c = '"' ∨ c = '\r' ∨ c = '\n') := by
  intro c hc
  simp only [needsQuote, List.any_eq_false] at h
  have hcc := h c hc
  intro hor
  apply hcc
  simp only [Bool.or_eq_true, decide_eq_true_eq]
  tauto

theorem string_mk_data (s : String) : String.mk s.data = s := rfl

theorem foldl_serCell_comma (s : String) (m : CsvMode)
    (hm : m = CsvMode.rowStart ∨ m = CsvMode.cellStart)
    (row : List String) (rows : List (List String)) :
    List.foldl csvStep ⟨m, [], row, rows⟩ (serCell s ++ [',']) =
      ⟨.cellStart, [], row ++ [s], rows⟩ := by
  by_cases hq : needsQuote s
  · have hser : serCell s = '"' :: (escQuotes s.data ++ ['"']) := by
      simp [serCell, hq]
    have hstep1 : csvStep ⟨m, [], row, rows⟩ '"' = ⟨.inQuoted, [], row, rows⟩ := by
      rcases hm with h | h <;> subst h <;> rfl
    have hshape : serCell s ++ [','] = '"' :: (escQuotes s.data ++ ['"', ',']) := by
      rw [hser]; simp
    rw [hshape, List.foldl_cons, hstep1, List.foldl_append, foldl_escQuotes]
    rfl
  · have hq' : needsQuote s = false := by simpa using hq
    have hchars := not_needsQuote_mem hq'
    have hser : serCell s = s.data := by simp [serCell, hq']
    rw [hser]
    match hd : s.data with
    | [] =>
      have hsempty : s = "" := by
        rw [← string_mk_data s, hd]
      simp only [List.nil_append, List.foldl_cons, List.foldl_nil]
      rcases hm with h | h <;> subst h <;> rw [hsempty] <;> rfl
    | c :: cs =>
      have hmemc : c ∈ s.data := by rw [hd]; exact List.mem_cons_self c cs
      have hc := hchars c hmemc
      push_neg at hc
      obtain ⟨h1, h2, h3, h4⟩ := hc
      have hstep1 : csvStep ⟨m, [], row, rows⟩ c = ⟨.inPlain, [c], row, rows⟩ := by
        rcases hm with h | h <;> subst h <;> simp [csvStep, h1, h2, h3, h4]
      have hcs : ∀ x ∈ cs, ¬(x = ',' ∨ x = '"' ∨ x = '\r' ∨ x = '\n') := by
        intro x hx
        exact hchars x (by rw [hd]; exact List.mem_cons_of_mem c hx)
      have hstep2 : csvStep ⟨.inPlain, c :: cs, row, rows⟩ ',' =
          ⟨.cellStart, [], row ++ [String.mk (c :: cs)], rows⟩ := rfl
      calc List.foldl csvStep ⟨m, [], row, rows⟩ ((c :: cs) ++ [','])
          = List.foldl csvStep ⟨.inPlain, [c], row, rows⟩ (cs ++ [',']) := by
            rw [List.cons_append, List.foldl_cons, hstep1]
        _ = List.foldl csvStep ⟨.inPlain, c :: cs, row, rows⟩ [','] := by
            rw [List.foldl_append, foldl_plain cs hcs]
            simp
        _ = ⟨.cellStart, [], row ++ [s], rows⟩ := by
            rw [List.foldl_cons, hstep2, List.foldl_nil, ← string_mk_data s, hd]

theorem foldl_serCell_cr (s : String) (m : CsvMode)
    (hm : m = CsvMode.cellStart ∨ (m = CsvMode.rowStart ∧ s ≠ ""))
    (row : List String) (rows : List (List String)) :
    List.foldl csvStep ⟨m, [], row, rows⟩ (serCell s ++ ['\r']) =
      ⟨.sawCR, [], row ++ [s], rows⟩ := by
  have hm' : m = CsvMode.rowStart ∨ m = CsvMode.cellStart := by
    rcases hm with h | ⟨h, _⟩
    · exact Or.inr h
    · exact Or.inl h
  by_cases hq : needsQuote s
  · have hser : serCell s = '"' :: (escQuotes s.data ++ ['"']) := by
      simp [serCell, hq]
    have hstep1 : csvStep ⟨m, [], row, rows⟩ '"' = ⟨.inQuoted, [], row, rows⟩ := by
      rcases hm' with h | h <;> subst h <;> rfl
    have hshape : serCell s ++ ['\r'] = '"' :: (escQuotes s.data ++ ['"', '\r']) := by
      rw [hser]; simp
    rw [hshape, List.foldl_cons, hstep1, List.foldl_append, foldl_escQuotes]
    rfl
  · have hq' : needsQuote s = false := by simpa using hq
    have hchars := not_needsQuote_mem hq'
    have hser : serCell s = s.data := by simp [serCell, hq']
    rw [hser]
    match hd : s.data with
    | [] =>
      have hsempty : s = "" := by
        rw [← string_mk_data s, hd]
      have hmc : m = CsvMode.cellStart := by
        rcases hm with h | ⟨_, hne⟩
        · exact h
        · exact absurd hsempty hne
      subst hmc
      rw [hsempty]
      rfl
    | c :: cs =>
      have hmemc : c ∈ s.data := by rw [hd]; exact List.mem_cons_self c cs
      have hc := hchars c hmemc
      push_neg at hc
      obtain ⟨h1, h2, h3, h4⟩ := hc
      have hstep1 : csvStep ⟨m, [], row, rows⟩ c = ⟨.inPlain, [c], row, rows⟩ := by
        rcases hm' with h | h <;> subst h <;> simp [csvStep, h1, h2, h3, h4]
      have hcs : ∀ x ∈ cs, ¬(x = ',' ∨ x = '"' ∨ x = '\r' ∨ x = '\n') := by
        intro x hx
        exact hchars x (by rw [hd]; exact List.mem_cons_of_mem c hx)
      have hstep2 : csvStep ⟨.inPlain, c :: cs, row, rows⟩ '\r' =
          ⟨.sawCR, [], row ++ [String.mk (c :: cs)], rows⟩ := rfl
      calc List.foldl csvStep ⟨m, [], row, rows⟩ ((c :: cs) ++ ['\r'])
          = List.foldl csvStep ⟨.inPlain, [c], row, rows⟩ (cs ++ ['\r']) := by
            rw [List.cons_append, List.foldl_cons, hstep1]
        _ = List.foldl csvStep ⟨.inPlain, c :: cs, row, rows⟩ ['\r'] := by
            rw [List.foldl_append, foldl_plain cs hcs]
            simp
        _ = ⟨.sawCR, [], row ++ [s], rows⟩ := by
            rw [List.foldl_cons, hstep2, List.foldl_nil, ← string_mk_data s, hd]

theorem foldl_serCells_crlf :
    ∀ (cells : List String) (m : CsvMode) (row : List String) (rows : List (List String)),
      cells ≠ [] →
      (m = CsvMode.cellStart ∨ (m = CsvMode.rowStart ∧ cells ≠ [""])) →
      List.foldl csvStep ⟨m, [], row, rows⟩ (serCells cells ++ ['\r', '\n']) =
        ⟨.rowStart, [], [], rows ++ [row ++ cells]⟩ := by
  intro cells
  induction cells with
  | nil => intro m row rows hne _; exact absurd rfl hne
  | cons s rest ih =>
    intro m row rows _ hm
    cases rest with
    | nil =>
      have hm2 : m = CsvMode.cellStart ∨ (m = CsvMode.rowStart ∧ s ≠ "") := by
        rcases hm with h | ⟨h, hs⟩
        · exact Or.inl h
        · exact Or.inr ⟨h, fun he => hs (by rw [he])⟩
      have hshape : serCells [s] ++ ['\r', '\n'] = (serCell s ++ ['\r']) ++ ['\n'] := by
        simp [serCells]
      rw [hshape, List.foldl_append, foldl_serCell_cr s m hm2 row rows]
      rfl
    | cons s2 rest2 =>
      have hm' : m = CsvMode.rowStart ∨ m = CsvMode.cellStart := by
        rcases hm with h | ⟨h, _⟩
        · exact Or.inr h
        · exact Or.inl h
      have hshape : serCells (s :: s2 :: rest2) ++ ['\r', '\n'] =
          (serCell s ++ [',']) ++ (serCells (s2 :: rest2) ++ ['\r', '\n']) := by
        simp [serCells]
      rw [hshape, List.foldl_append, foldl_serCell_comma s m hm' row rows,
        ih CsvMode.cellStart (row ++ [s]) rows (by simp) (Or.inl rfl)]
      simp

theorem foldl_serRow (cells : List String) (rows : List (List String)) :
    List.foldl csvStep ⟨.rowStart, [], [], rows⟩ (serRow cells) =
      ⟨.rowStart, [], [], rows ++ [cells]⟩ := by
  by_cases hsp : cells = [""]
  · subst hsp
    have hser : serRow [""] = ['"', '"', '\r', '\n'] := by simp [serRow]
    rw [hser]
    rfl
  · by_cases hnil : cells = []
    · subst hnil
      have hser : serRow [] = ['\r', '\n'] := by simp [serRow, serCells]
      rw [hser]
      rfl
    · have hser : serRow cells = serCells cells ++ ['\r', '\n'] := by simp [serRow, hsp]
      rw [hser, foldl_serCells_crlf cells CsvMode.rowStart [] rows hnil (Or.inr ⟨rfl, hsp⟩)]
      simp

theorem foldl_serCsv :
    ∀ (rowsL acc : List (List String)),
      List.foldl csvStep ⟨.rowStart, [], [], acc⟩ (serCsv rowsL) =
        ⟨.rowStart, [], [], acc ++ rowsL⟩ := by
  intro rowsL
  induction rowsL with
  | nil => intro acc; simp [serCsv]
  | cons r rs ih =>
    intro acc
    have hshape : serCsv (r :: rs) = serRow r ++ serCsv rs := by simp [serCsv]
    rw [hshape, List.foldl_append, foldl_serRow, ih]
    simp

theorem parseCsv_csvDoc (rowsL : List (List String)) : parseCsv (csvDoc rowsL) = rowsL := by
  show csvFinish (List.foldl csvStep csvInit (String.mk (serCsv rowsL)).data) = rowsL
  have hdata : (String.mk (serCsv rowsL)).data = serCsv rowsL := rfl
  have hinit : csvInit = (⟨CsvMode.rowStart, [], [], []⟩ : CsvSt) := rfl
  rw [hdata, hinit, foldl_serCsv rowsL []]
  simp [csvFinish]

/- Symbol normalisation (stock_prices.py `_normalise_symbols`). Python's
`str.strip` / `str.upper` are platform primitives; they are modelled over
the ASCII range (whitespace ` \t\n\r\x0b\x0c`, letters a-z), which covers
every value the claims mention. -/

/-- ASCII whitespace recognised by the modelled `str.strip`. -/
def pySpace (c : Char) : Bool :=
  c.toNat = 32 || c.toNat = 9 || c.toNat = 10 || c.toNat = 13 || c.toNat = 11 || c.toNat = 12

/-- Characters of a string with leading and trailing whitespace removed. -/
def stripChars (l : List Char) : List Char :=
  ((l.dropWhile pySpace).reverse.dropWhile pySpace).reverse

/-- Model of `str.strip()`. -/
def pyStrip (s : String) : String := String.mk (stripChars s.data)

/-- Model of `str.upper()` (ASCII case mapping, as in `Char.toUpper`). -/
def pyUpper (s : String) : String := String.mk (s.data.map Char.toUpper)

/-- The per-element normalisation `raw_symbol.strip().upper()`. -/
def normOne (s : String) : String := pyUpper (pyStrip s)

theorem char_toNat_ofNat_valid {n : Nat} (h : n < 55296) : (Char.ofNat n).toNat = n := by
  rw [Char.ofNat, dif_pos (Or.inl h)]
  rfl

theorem char_toUpper_eq (c : Char) :
    Char.toUpper c = if c.toNat ≥ 97 ∧ c.toNat ≤ 122 then Char.ofNat (c.toNat - 32) else c := rfl

theorem pySpace_toUpper (c : Char) : pySpace (Char.toUpper c) = pySpace c := by
  rw [char_toUpper_eq c]
  by_cases h : c.toNat ≥ 97 ∧ c.toNat ≤ 122
  · rw [if_pos h]
    have hv : (Char.ofNat (c.toNat - 32)).toNat = c.toNat - 32 :=
      char_toNat_ofNat_valid (by omega)
    have h1 : pySpace (Char.ofNat (c.toNat - 32)) = false := by
      simp only [pySpace, hv]
      simp only [Bool.or_eq_false_iff, decide_eq_false_iff_not]
      omega
    have h2 : pySpace c = false := by
      simp only [pySpace]
      simp only [Bool.or_eq_false_iff, decide_eq_false_iff_not]
      omega
    rw [h1, h2]
  · rw [if_neg h]

theorem char_toUpper_idem (c : Char) : Char.toUpper (Char.toUpper c) = Char.toUpper c := by
  rw [char_toUpper_eq c]
  by_cases h : c.toNat ≥ 97 ∧ c.toNat ≤ 122
  · rw [if_pos h, char_toUpper_eq]
    have hv : (Char.ofNat (c.toNat - 32)).toNat = c.toNat - 32 :=
      char_toNat_ofNat_valid (by omega)
    rw [hv, if_neg (by omega)]
  · rw [if_neg h, char_toUpper_eq, if_neg h]

theorem head?_dropWhile_not (p : Char → Bool) :
    ∀ (l : List Char) (c : Char), (l.dropWhile p).head? = some c → p c = false := by
  intro l
  induction l with
  | nil => intro c h; simp [List.dropWhile] at h
  | cons a t ih =>
    intro c h
    by_cases ha : p a
    · rw [List.dropWhile_cons, if_pos ha] at h
      exact ih c h
    · rw [List.dropWhile_cons, if_neg ha] at h
      simp only [List.head?_cons, Option.some_inj] at h
      subst h
      simpa using ha

theorem getLast?_dropWhile (p : Char → Bool) :
    ∀ (l : List Char) (c : Char), (l.dropWhile p).getLast? = some c → l.getLast? = some c := by
  intro l
  induction l with
  | nil => intro c h; simp [List.dropWhile] at h
  | cons a t ih =>
    intro c h
    by_cases ha : p a
    · rw [List.dropWhile_cons, if_pos ha] at h
      have := ih c h
      cases t with
      | nil => simp [List.dropWhile] at h
      | cons b t2 => rw [List.getLast?_cons_cons]; exact this
    · rw [List.dropWhile_cons, if_neg ha] at h
      exact h

theorem stripChars_head (l : List Char) :
    ∀ c, (stripChars l).head? = some c → pySpace c = false := by
  intro c h
  unfold stripChars at h
  rw [List.head?_reverse] at h
  have h2 := getLast?_dropWhile pySpace _ c h
  rw [List.getLast?_reverse] at h2
  exact head?_dropWhile_not pySpace _ c h2

theorem stripChars_getLast (l : List Char) :
    ∀ c, (stripChars l).getLast? = some c → pySpace c = false := by
  intro c h
  unfold stripChars at h
  rw [List.getLast?_reverse] at h
  exact head?_dropWhile_not pySpace _ c h

theorem dropWhile_of_head_not (p : Char → Bool) (l : List Char)
    (h : ∀ c, l.head? = some c → p c = false) : l.dropWhile p = l := by
  cases l with
  | nil => rfl
  | cons a t =>
    have ha := h a rfl
    rw [List.dropWhile_cons, if_neg (by simp [ha])]

theorem stripChars_of_stripped (l : List Char)
    (h1 : ∀ c, l.head? = some c → pySpace c = false)
    (h2 : ∀ c, l.getLast? = some c → pySpace c = false) :
    stripChars l = l := by
  unfold stripChars
  rw [dropWhile_of_head_not pySpace l h1]
  rw [dropWhile_of_head_not pySpace l.reverse (by
    intro c hc
    rw [List.head?_reverse] at hc
    exact h2 c hc)]
  exact List.reverse_reverse l

theorem stripChars_idem (l : List Char) : stripChars (stripChars l) = stripChars l :=
  stripChars_of_stripped (stripChars l) (stripChars_head l) (stripChars_getLast l)

theorem stripChars_map_toUpper (l : List Char) :
    stripChars (l.map Char.toUpper) = (stripChars l).map Char.toUpper := by
  have hcomp : (pySpace ∘ Char.toUpper) = pySpace := by
    funext c
    exact pySpace_toUpper c
  have hfun : List.dropWhile (pySpace ∘ Char.toUpper) = List.dropWhile pySpace := by
    rw [hcomp]
  unfold stripChars
  rw [List.dropWhile_map, hfun, ← List.map_reverse, List.dropWhile_map, hfun, ← List.map_reverse]

theorem normOne_idem (s : String) : normOne (normOne s) = normOne s := by
  show pyUpper (pyStrip (pyUpper (pyStrip s))) = pyUpper (pyStrip s)
  unfold pyUpper pyStrip
  have hdata : ∀ (l : List Char), (String.mk l).data = l := fun _ => rfl
  rw [hdata, hdata, hdata, stripChars_map_toUpper, stripChars_idem, List.map_map]
  have hupup : (Char.toUpper ∘ Char.toUpper) = Char.toUpper := by
    funext c
    exact char_toUpper_idem c
  rw [hupup]

/-- Translation of `_normalise_symbols`: walk the raw symbols, strip and
upper-case each, skip empties and already-seen symbols, keep first-seen
order. The Python `set` of seen symbols is modelled by a list queried by
membership. -/
def normAux : List String → List String → List String
  | [], _ => []
  | raw :: rest, seen =>
    let symbol := normOne raw
    if symbol = "" ∨ symbol ∈ seen then normAux rest seen
    else symbol :: normAux rest (symbol :: seen)

/-- `_normalise_symbols(symbols)`. -/
def normaliseSymbols (symbols : List String) : List String := normAux symbols []

theorem normAux_mem :
    ∀ (l seen : List String) (x : String), x ∈ normAux l seen →
      (∃ raw ∈ l, x = normOne raw) ∧ x ≠ "" ∧ x ∉ seen := by
  intro l
  induction l with
  | nil => intro seen x hx; simp [normAux] at hx
  | cons raw rest ih =>
    intro seen x hx
    simp only [normAux] at hx
    by_cases hguard : normOne raw = "" ∨ normOne raw ∈ seen
    · rw [if_pos hguard] at hx
      obtain ⟨⟨r, hr, hxr⟩, hne, hnotin⟩ := ih seen x hx
      exact ⟨⟨r, List.mem_cons_of_mem raw hr, hxr⟩, hne, hnotin⟩
    · rw [if_neg hguard] at hx
      push_neg at hguard
      obtain ⟨hne1, hnotin1⟩ := hguard
      rcases List.mem_cons.mp hx with hx | hx
      · subst hx
        exact ⟨⟨raw, List.mem_cons_self raw rest, rfl⟩, hne1, hnotin1⟩
      · obtain ⟨⟨r, hr, hxr⟩, hne, hnotin⟩ := ih (normOne raw :: seen) x hx
        refine ⟨⟨r, List.mem_cons_of_mem raw hr, hxr⟩, hne, ?_⟩
        intro hmem
        exact hnotin (List.mem_cons_of_mem _ hmem)

theorem normAux_nodup : ∀ (l seen : List String), (normAux l seen).Nodup := by
  intro l
  induction l with
  | nil => intro seen; simp [normAux]
  | cons raw rest ih =>
    intro seen
    simp only [normAux]
    by_cases hguard : normOne raw = "" ∨ normOne raw ∈ seen
    · rw [if_pos hguard]; exact ih seen
    · rw [if_neg hguard]
      refine List.Nodup.cons ?_ (ih (normOne raw :: seen))
      intro hmem
      have := (normAux_mem rest (normOne raw :: seen) (normOne raw) hmem).2.2
      exact this (List.mem_cons_self _ _)

theorem normAux_fixed :
    ∀ (m seen : List String),
      (∀ x ∈ m, normOne x = x ∧ x ≠ "") → m.Nodup → (∀ x ∈ m, x ∉ seen) →
      normAux m seen = m := by
  intro m
  induction m with
  | nil => intro seen _ _ _; rfl
  | cons x rest ih =>
    intro seen hfix hnd hdisj
    obtain ⟨hx, hxne⟩ := hfix x (List.mem_cons_self x rest)
    have hguard : ¬(x = "" ∨ x ∈ seen) := by
      push_neg
      exact ⟨hxne, hdisj x (List.mem_cons_self x rest)⟩
    have hndrest := (List.nodup_cons.mp hnd).2
    have hxnotin := (List.nodup_cons.mp hnd).1
    simp only [normAux, hx, if_neg hguard]
    rw [ih (x :: seen)
      (fun y hy => hfix y (List.mem_cons_of_mem x hy)) hndrest
      (fun y hy hmem => by
        rcases List.mem_cons.mp hmem with h | h
        · exact hxnotin (h ▸ hy)
        · exact hdisj y (List.mem_cons_of_mem x hy) h)]

theorem normaliseSymbols_idem (l : List String) :
    normaliseSymbols (normaliseSymbols l) = normaliseSymbols l := by
  apply normAux_fixed
  · intro x hx
    obtain ⟨⟨raw, _, hxr⟩, hne, _⟩ := normAux_mem l [] x hx
    refine ⟨?_, hne⟩
    rw [hxr, normOne_idem]
  · exact normAux_nodup l []
  · intro x _
    simp

theorem normAux_blank : ∀ (l seen : List String), (∀ s ∈ l, normOne s = "") →
    normAux l seen = [] := by
  intro l
  induction l with
  | nil => intro seen _; rfl
  | cons raw rest ih =>
    intro seen hall
    have h1 : normOne raw = "" := hall raw (List.mem_cons_self raw rest)
    simp only [normAux, if_pos (Or.inl h1)]
    exact ih seen (fun s hs => hall s (List.mem_cons_of_mem raw hs))

/- Provider B (stock_prices.py): quote fetching, record building, CSV
export and the fetch-then-save composition. -/

/-- Split a character list at its first dot. -/
def splitDot : List Char → Option (List Char × List Char)
  | [] => none
  | c :: cs =>
    if c = '.' then some ([], cs)
    else (splitDot cs).map (fun p => (c :: p.1, p.2))

/-- Model of `float` applied to a string: an optional sign, integer
digits, an optional fractional part (the plain decimal subset of
Python's float literals; no claim exercises exponents or inf/nan). -/
def strToRat? (cs : List Char) : Option ℚ :=
  let signRest : Bool × List Char :=
    match cs with
    | '-' :: r => (true, r)
    | '+' :: r => (false, r)
    | r => (false, r)
  let ipfp : List Char × List Char :=
    match splitDot signRest.2 with
    | none => (signRest.2, [])
    | some p => p
  if ipfp.1 = [] ∧ ipfp.2 = [] then none
  else
    match readNatGo ipfp.1 0, readNatGo ipfp.2 0 with
    | some ipv, some fpv =>
      let mag : ℚ := (ipv : ℚ) + (fpv : ℚ) / ((10 : ℚ) ^ ipfp.2.length)
      some (if signRest.1 then -mag else mag)
    | _, _ => none

/-- Model of `float(x)` on the modelled values: numbers pass through,
bools coerce to 0/1, numeric strings parse, anything else raises. -/
def pyFloat : JVal → Except PyExn ℚ
  | .num q => .ok q
  | .bool b => .ok (if b then 1 else 0)
  | .str s =>
    match strToRat? s.data with
    | some q => .ok q
    | none => .error .valueError
  | .null => .error .typeError

/-- Model of `datetime.fromtimestamp(x)`: accepts a number (bools are
ints), rejects other types with TypeError. -/
def pyFromTimestamp : JVal → Except PyExn DateTime
  | .num q => .ok ⟨q⟩
  | .bool b => .ok ⟨if b then 1 else 0⟩
  | .str _ => .error .typeError
  | .null => .error .typeError

/-- One element of the `quoteResponse.result` list, with the four fields
the code reads; `none` is an absent key. -/
structure EntryB where
  symbol : Option JVal
  regularMarketPrice : Option JVal
  currency : Option JVal
  regularMarketTime : Option JVal
  deriving DecidableEq

/-- `entry.get(key)`: an absent key gives Python None, and a JSON null
value is Python None as well. -/
def pyGet (v : Option JVal) : JVal := v.getD .null

/-- A normalized price record as built by Provider B's fetch loop. -/
structure RecordB where
  symbol : JVal
  price : ℚ
  currency : JVal
  timestamp : Option DateTime
  deriving DecidableEq

/-- Body of the `for entry in result` loop: skip when symbol or price is
None (`continue`, modelled as `.ok none`), coerce the price with
`float`, default a falsy currency to the empty string, and convert a
truthy epoch with `datetime.fromtimestamp`. -/
def procEntry (e : EntryB) : Except PyExn (Option RecordB) :=
  let symbol := pyGet e.symbol
  let price := pyGet e.regularMarketPrice
  let currency := pyGet e.currency
  let timestamp := pyGet e.regularMarketTime
  if symbol = JVal.null ∨ price = JVal.null then .ok none
  else
    match pyFloat price with
    | .error ex => .error ex
    | .ok p =>
      let cur := if pyTruthy currency then currency else JVal.str ""
      match (if pyTruthy timestamp then (pyFromTimestamp timestamp).map some
             else .ok none) with
      | .error ex => .error ex
      | .ok ts => .ok (some ⟨symbol, p, cur, ts⟩)

/-- The whole result loop: an exception aborts the call, otherwise the
processed records accumulate in response order. -/
def processEntries : List EntryB → Except PyExn (List RecordB)
  | [] => .ok []
  | e :: es =>
    match procEntry e with
    | .error ex => .error ex
    | .ok none => processEntries es
    | .ok (some r) =>
      match processEntries es with
      | .error ex => .error ex
      | .ok rs => .ok (r :: rs)

/-- The record an entry contributes to a successful call, if any. -/
def keptRecord (e : EntryB) : Option RecordB :=
  match procEntry e with
  | .ok r => r
  | .error _ => none

/-- The `quoteResponse` object. -/
structure QuoteResp where
  result : Option (List EntryB)
  deriving DecidableEq

/-- The decoded response body of the quote endpoint. -/
structure PayloadB where
  quoteResponse : Option QuoteResp
  deriving DecidableEq

/-- `payload.get("quoteResponse", {}).get("result", [])`. -/
def resultOf (p : PayloadB) : List EntryB :=
  ((p.quoteResponse.getD ⟨none⟩).result).getD []

/-- The single HTTP interaction of Provider B: either the connection
fails (URLError), or a status and body arrive; a `none` body is one that
is not valid JSON. -/
inductive NetB where
  | urlError
  | resp (status : Nat) (body : Option PayloadB)
  deriving DecidableEq

/-- Provider B `fetch_stock_prices(symbols)` over a network oracle. The
Bool component records whether the HTTP request was issued at all. -/
def fetchB (symbols : List String) (net : NetB) : Except PyExn (List RecordB) × Bool :=
  if normaliseSymbols symbols = [] then (.error .valueError, false)
  else
    match net with
    | .urlError => (.error (.runtimeError "Failed to fetch stock data"), true)
    | .resp status body =>
      if status ≠ 200 then
        (.error (.runtimeError ("Yahoo Finance API returned unexpected status: "
          ++ toString status)), true)
      else
        match body with
        | none => (.error .jsonDecodeError, true)
        | some payload => (processEntries (resultOf payload), true)

/-- The single output file of a pipeline run: its content when present. -/
abbrev FS := Option String

/-- Modelled from the spec: `datetime.isoformat()` gives "a standard
date-time text representation"; the calendar rendering of the stdlib is
a platform primitive outside src/, modelled as an injective rendering of
the epoch the value was built from. -/
def DateTime.isoformat (t : DateTime) : String := ⟨ratChars t.epoch⟩

/-- CSV cell of a record field, as `csv.writer` renders values: None is
written as the empty cell, strings verbatim, other values via `str`. -/
def csvCellOfVal : JVal → String
  | .null => ""
  | .str s => s
  | .num q => ratStr q
  | .bool b => if b then "True" else "False"

/-- The timestamp column: datetimes via isoformat, None as empty. -/
def tsCell : Option DateTime → String
  | some t => t.isoformat
  | none => ""

/-- The fixed header of Provider B's CSV. -/
def headerB : List String := ["symbol", "price", "currency", "timestamp"]

/-- The four cells written for one record by `save_prices_to_csv`. -/
def recordCells (r : RecordB) : List String :=
  [csvCellOfVal r.symbol, ratStr r.price, csvCellOfVal r.currency, tsCell r.timestamp]

/-- Document text produced by `save_prices_to_csv`. -/
def saveDoc (prices : List RecordB) : String :=
  csvDoc (headerB :: prices.map recordCells)

/-- `save_prices_to_csv` as a file transformer: it rewrites the file
unconditionally with header plus one row per record. -/
def savePricesRun (prices : List RecordB) (_fs : FS) : FS := some (saveDoc prices)

/-- `fetch_and_save_stock_prices`: fetch, then save, returning the
fetched records; a fetch failure propagates before any write. -/
def fetchAndSaveRun (symbols : List String) (net : NetB) (fs : FS) :
    FS × Except PyExn (List RecordB) :=
  match fetchB symbols net with
  | (.error ex, _) => (fs, .error ex)
  | (.ok prices, _) => (savePricesRun prices fs, .ok prices)

theorem processEntries_ok :
    ∀ (l : List EntryB) (out : List RecordB), processEntries l = Except.ok out →
      out = l.filterMap keptRecord := by
  intro l
  induction l with
  | nil =>
    intro out h
    simp only [processEntries, Except.ok.injEq] at h
    simp [← h]
  | cons e es ih =>
    intro out h
    simp only [processEntries] at h
    match hp : procEntry e with
    | .error ex => rw [hp] at h; exact absurd h (by simp)
    | .ok none =>
      rw [hp] at h
      rw [List.filterMap_cons, show keptRecord e = none from by simp [keptRecord, hp]]
      exact ih out h
    | .ok (some r) =>
      rw [hp] at h
      match hrest : processEntries es with
      | .error ex => rw [hrest] at h; exact absurd h (by simp)
      | .ok rs =>
        rw [hrest] at h
        simp only [Except.ok.injEq] at h
        rw [List.filterMap_cons, show keptRecord e = some r from by simp [keptRecord, hp]]
        rw [← h, ih rs hrest]

theorem processEntries_total :
    ∀ (l : List EntryB), (∀ e ∈ l, ∃ v, procEntry e = Except.ok v) →
      processEntries l = Except.ok (l.filterMap keptRecord) := by
  intro l
  induction l with
  | nil => intro _; rfl
  | cons e es ih =>
    intro h
    obtain ⟨v, hv⟩ := h e (List.mem_cons_self e es)
    have hrest := ih (fun x hx => h x (List.mem_cons_of_mem e hx))
    have hkept : keptRecord e = v := by simp [keptRecord, hv]
    cases v with
    | none =>
      simp only [processEntries, hv, List.filterMap_cons, hkept]
      exact hrest
    | some r =>
      simp only [processEntries, hv, hrest, List.filterMap_cons, hkept]

/- Provider A (stock_fetcher.py): Alpha Vantage daily series fetching,
date parsing, descending sort, CSV export. -/

/-- Two-digit month per strptime's pattern for %m ("1[0-2]|0[1-9]"). -/
def month2? (a b : Char) : Option Nat :=
  match digitVal? a, digitVal? b with
  | some x, some y =>
    let m := x * 10 + y
    if 1 ≤ m ∧ m ≤ 12 then some m else none
  | _, _ => none

/-- One-digit month per strptime's pattern for %m ("[1-9]"). -/
def month1? (c : Char) : Option Nat :=
  match digitVal? c with
  | some x => if 1 ≤ x then some x else none
  | none => none

/-- Two-digit day per strptime's pattern for %d ("3[01]|[12]\d|0[1-9]"). -/
def day2? (a b : Char) : Option Nat :=
  match digitVal? a, digitVal? b with
  | some x, some y =>
    let d := x * 10 + y
    if 1 ≤ d ∧ d ≤ 31 then some d else none
  | _, _ => none

/-- One-digit day per strptime's pattern for %d ("[1-9]"). -/
def day1? (c : Char) : Option Nat :=
  match digitVal? c with
  | some x => if 1 ≤ x then some x else none
  | none => none

/-- The day digits must consume the rest of the string (strptime fails
on unconverted data). -/
def parseDayEnd : List Char → Option Nat
  | [a, b] => day2? a b
  | [a] => day1? a
  | _ => none

/-- Month then day, preferring the two-digit month form as the regex
alternation does. -/
def parseMdChars : List Char → Option (Nat × Nat)
  | a :: b :: '-' :: rest =>
    match month2? a b with
    | some m => (parseDayEnd rest).map (fun d => (m, d))
    | none => none
  | a :: '-' :: rest =>
    match month1? a with
    | some m => (parseDayEnd rest).map (fun d => (m, d))
    | none => none
  | _ => none

/-- Gregorian leap year. -/
def isLeap (y : Nat) : Bool := y % 4 = 0 && (y % 100 ≠ 0 || y % 400 = 0)

/-- Days in a month, as validated by the datetime constructor. -/
def daysInMonth (y m : Nat) : Nat :=
  if m = 2 then (if isLeap y then 29 else 28)
  else if m = 4 ∨ m = 6 ∨ m = 9 ∨ m = 11 then 30
  else 31

/-- Model of `datetime.strptime(s, "%Y-%m-%d")`: four year digits, dash,
one or two month digits, dash, one or two day digits consuming the whole
string, then the datetime constructor's range checks (year at least 1,
day within the month). -/
def parseYmdChars (cs : List Char) : Option (Nat × Nat × Nat) :=
  match cs with
  | y1 :: y2 :: y3 :: y4 :: '-' :: rest =>
    match digitVal? y1, digitVal? y2, digitVal? y3, digitVal? y4 with
    | some a, some b, some c, some d =>
      let y := ((a * 10 + b) * 10 + c) * 10 + d
      match parseMdChars rest with
      | some (m, dd) =>
        if 1 ≤ y ∧ dd ≤ daysInMonth y m then some (y, m, dd) else none
      | none => none
    | _, _, _, _ => none
  | _ => none

/-- Two zero-padded decimal digits. -/
def pad2 (n : Nat) : List Char := [Nat.digitChar (n / 10 % 10), Nat.digitChar (n % 10)]

/-- Four zero-padded decimal digits. -/
def pad4 (n : Nat) : List Char :=
  [Nat.digitChar (n / 1000 % 10), Nat.digitChar (n / 100 % 10),
   Nat.digitChar (n / 10 % 10), Nat.digitChar (n % 10)]

/-- `date(y, m, d).isoformat()`. -/
def isoDate (y m d : Nat) : String := ⟨pad4 y ++ '-' :: (pad2 m ++ '-' :: pad2 d)⟩

/-- The nested per-day object of the time series, with the six keys the
code reads ("1. open" .. "6. volume"); `none` is an absent key. -/
structure DayData where
  openV : Option String
  highV : Option String
  lowV : Option String
  closeV : Option String
  adjustedCloseV : Option String
  volumeV : Option String
  deriving DecidableEq

/-- One flat output row of Provider A. -/
structure RowA where
  dateR : String
  openR : String
  highR : String
  lowR : String
  closeR : String
  adjustedCloseR : String
  volumeR : String
  deriving DecidableEq

/-- One comprehension step: re-serialize the parsed date key, then read
the six day fields; a malformed date raises ValueError (strptime or the
datetime constructor), a missing field raises KeyError. -/
def rowOfEntry (e : String × DayData) : Except PyExn RowA :=
  match parseYmdChars e.1.data with
  | none => .error .valueError
  | some (y, m, d) =>
    match e.2.openV with
    | none => .error .keyError
    | some o =>
      match e.2.highV with
      | none => .error .keyError
      | some h =>
        match e.2.lowV with
        | none => .error .keyError
        | some lo =>
          match e.2.closeV with
          | none => .error .keyError
          | some cl =>
            match e.2.adjustedCloseV with
            | none => .error .keyError
            | some ac =>
              match e.2.volumeV with
              | none => .error .keyError
              | some vo => .ok ⟨isoDate y m d, o, h, lo, cl, ac, vo⟩

/-- The list comprehension over the sorted items: the first failing
entry aborts the whole call. -/
def rowsOfEntries : List (String × DayData) → Except PyExn (List RowA)
  | [] => .ok []
  | e :: es =>
    match rowOfEntry e with
    | .error ex => .error ex
    | .ok r =>
      match rowsOfEntries es with
      | .error ex => .error ex
      | .ok rs => .ok (r :: rs)

/-- Python's `<` on strings: lexicographic comparison by code point,
a proper prefix is smaller. -/
def charsLT : List Char → List Char → Bool
  | [], [] => false
  | [], _ :: _ => true
  | _ :: _, [] => false
  | a :: as, b :: bs =>
    if a < b then true
    else if b < a then false
    else charsLT as bs

/-- String comparison as Python performs it. -/
def strLT (a b : String) : Prop := charsLT a.data b.data = true

theorem charsLT_asymm : ∀ x y, charsLT x y = true → charsLT y x = false := by
  intro x
  induction x with
  | nil =>
    intro y h
    cases y with
    | nil => rfl
    | cons b bs => rfl
  | cons a as ih =>
    intro y h
    cases y with
    | nil => exact absurd h (by simp [charsLT])
    | cons b bs =>
      simp only [charsLT] at h ⊢
      by_cases hab : a < b
      · rw [if_neg (lt_asymm hab), if_pos hab]
      · rw [if_neg hab] at h
        by_cases hba : b < a
        · rw [if_pos hba] at h
          exact absurd h (by simp)
        · rw [if_neg hba] at h
          rw [if_neg hba, if_neg hab]
          exact ih bs h

theorem charsLT_eq_of_not : ∀ x y, charsLT x y = false → charsLT y x = false → x = y := by
  intro x
  induction x with
  | nil =>
    intro y hxy _
    cases y with
    | nil => rfl
    | cons b bs => exact absurd hxy (by simp [charsLT])
  | cons a as ih =>
    intro y hxy hyx
    cases y with
    | nil => exact absurd hyx (by simp [charsLT])
    | cons b bs =>
      simp only [charsLT] at hxy hyx
      by_cases hab : a < b
      · rw [if_pos hab] at hxy
        exact absurd hxy (by simp)
      · by_cases hba : b < a
        · rw [if_pos hba] at hyx
          exact absurd hyx (by simp)
        · rw [if_neg hab, if_neg hba] at hxy
          rw [if_neg hba, if_neg hab] at hyx
          have hchar : a = b := le_antisymm (not_lt.mp hba) (not_lt.mp hab)
          rw [hchar, ih bs hxy hyx]

theorem charsLT_trans : ∀ x y z, charsLT x y = true → charsLT y z = true → charsLT x z = true := by
  intro x
  induction x with
  | nil =>
    intro y z hxy hyz
    cases y with
    | nil => exact absurd hxy (by simp [charsLT])
    | cons b bs =>
      cases z with
      | nil => exact absurd hyz (by simp [charsLT])
      | cons c cs => rfl
  | cons a as ih =>
    intro y z hxy hyz
    cases y with
    | nil => exact absurd hxy (by simp [charsLT])
    | cons b bs =>
      cases z with
      | nil => exact absurd hyz (by simp [charsLT])
      | cons c cs =>
        simp only [charsLT] at hxy hyz ⊢
        by_cases hab : a < b
        · by_cases hbc : b < c
          · rw [if_pos (lt_trans hab hbc)]
          · by_cases hcb : c < b
            · rw [if_neg hbc, if_pos hcb] at hyz
              exact absurd hyz (by simp)
            · have hbceq : b = c := le_antisymm (not_lt.mp hcb) (not_lt.mp hbc)
              rw [if_pos (hbceq ▸ hab)]
        · by_cases hba : b < a
          · rw [if_neg hab, if_pos hba] at hxy
            exact absurd hxy (by simp)
          · have habeq : a = b := le_antisymm (not_lt.mp hba) (not_lt.mp hab)
            rw [if_neg hab, if_neg hba] at hxy
            by_cases hbc : b < c
            · rw [if_pos (habeq ▸ hbc)]
            · by_cases hcb : c < b
              · rw [if_neg hbc, if_pos hcb] at hyz
                exact absurd hyz (by simp)
              · have hbceq : b = c := le_antisymm (not_lt.mp hcb) (not_lt.mp hbc)
                rw [if_neg hbc, if_neg hcb] at hyz
                have hac : ¬ a < c := by rw [← hbceq, habeq]; exact lt_irrefl b
                have hca : ¬ c < a := by rw [← hbceq, habeq]; exact lt_irrefl b
                rw [if_neg hac, if_neg hca]
                exact ih bs cs hxy hyz

/-- Descending tuple order used by `sorted(entries.items(), reverse=True)`:
the keys of a dict are distinct, so only the date-string key matters;
an element precedes another when its key is not smaller. -/
def keyGE (a b : String × DayData) : Prop := charsLT a.1.data b.1.data = false

instance : DecidableRel keyGE := fun a b => instDecidableEqBool (charsLT a.1.data b.1.data) false

instance : IsTotal (String × DayData) keyGE := by
  constructor
  intro a b
  by_cases h : charsLT a.1.data b.1.data = true
  · exact Or.inr (charsLT_asymm _ _ h)
  · exact Or.inl (by simpa [keyGE] using h)

instance : IsTrans (String × DayData) keyGE := by
  constructor
  intro a b c hab hbc
  simp only [keyGE] at hab hbc ⊢
  by_cases hac : charsLT a.1.data c.1.data = true
  · by_cases hcb : charsLT c.1.data b.1.data = true
    · have := charsLT_trans _ _ _ hac hcb
      rw [hab] at this
      exact absurd this (by simp)
    · have hcb' : charsLT c.1.data b.1.data = false := by simpa using hcb
      have heq := charsLT_eq_of_not _ _ hbc hcb'
      rw [heq] at hab
      rw [hab] at hac
      exact absurd hac (by simp)
  · simpa using hac

/-- `sorted(entries.items(), reverse=True)`. -/
def sortDescA (entries : List (String × DayData)) : List (String × DayData) :=
  List.insertionSort keyGE entries

/-- The decoded JSON body of Provider A's endpoint: the "Error Message"
key when present, and the "Time Series (Daily)" mapping when present
(dict items in insertion order). -/
structure PayloadA where
  errorMessage : Option String
  timeSeries : Option (List (String × DayData))
  deriving DecidableEq

/-- Provider A's HTTP response: status code and decoded body (`none` is
a body that is not valid JSON). -/
structure RespA where
  status : Nat
  body : Option PayloadA
  deriving DecidableEq

/-- The fixed header of Provider A's CSV. -/
def headerA : List String :=
  ["date", "open", "high", "low", "close", "adjusted_close", "volume"]

/-- The cells written for one Provider A row. -/
def rowCellsA (r : RowA) : List String :=
  [r.dateR, r.openR, r.highR, r.lowR, r.closeR, r.adjustedCloseR, r.volumeR]

/-- Document text written by Provider A. -/
def csvDocA (rows : List RowA) : String := csvDoc (headerA :: rows.map rowCellsA)

/-- Provider A `fetch_stock_prices(symbol, ...)` over a response and the
output file: validations run in source order (HTTP ok, error field,
series key, row building) and the file is opened and written only after
all of them succeed. `requests`' `ok` is `status < 400`. -/
def fetchA (symbol : String) (resp : RespA) (fs : FS) : FS × Except PyExn (List RowA) :=
  if 400 ≤ resp.status then
    (fs, .error (.stockPriceFetchError
      ("Failed to fetch stock prices for " ++ symbol ++ ": HTTP " ++ toString resp.status)))
  else
    match resp.body with
    | none => (fs, .error .jsonDecodeError)
    | some payload =>
      match payload.errorMessage with
      | some m =>
        (fs, .error (.stockPriceFetchError ("API error for " ++ symbol ++ ": " ++ m)))
      | none =>
        match payload.timeSeries with
        | none =>
          (fs, .error (.stockPriceFetchError
            "Unexpected response structure. Missing 'Time Series (Daily)' key."))
        | some entries =>
          match rowsOfEntries (sortDescA entries) with
          | .error ex => (fs, .error ex)
          | .ok rows => (some (csvDocA rows), .ok rows)

/-- Well-formedness of a time series: every date key parses and every
day object carries all six fields. -/
def SeriesWF (entries : List (String × DayData)) : Prop :=
  ∀ e ∈ entries, (parseYmdChars e.1.data).isSome ∧ e.2.openV.isSome ∧ e.2.highV.isSome
    ∧ e.2.lowV.isSome ∧ e.2.closeV.isSome ∧ e.2.adjustedCloseV.isSome ∧ e.2.volumeV.isSome

theorem rowsOfEntries_forall₂ :
    ∀ (l : List (String × DayData)) (rows : List RowA), rowsOfEntries l = Except.ok rows →
      List.Forall₂ (fun e r => rowOfEntry e = Except.ok r) l rows := by
  intro l
  induction l with
  | nil =>
    intro rows h
    simp only [rowsOfEntries, Except.ok.injEq] at h
    rw [← h]
    exact List.Forall₂.nil
  | cons e es ih =>
    intro rows h
    simp only [rowsOfEntries] at h
    match he : rowOfEntry e with
    | .error ex => rw [he] at h; exact absurd h (by simp)
    | .ok r =>
      rw [he] at h
      match hrest : rowsOfEntries es with
      | .error ex => rw [hrest] at h; exact absurd h (by simp)
      | .ok rs =>
        rw [hrest] at h
        simp only [Except.ok.injEq] at h
        rw [← h]
        exact List.Forall₂.cons he (ih rs hrest)

theorem rowOfEntry_total (e : String × DayData)
    (h : (parseYmdChars e.1.data).isSome ∧ e.2.openV.isSome ∧ e.2.highV.isSome
      ∧ e.2.lowV.isSome ∧ e.2.closeV.isSome ∧ e.2.adjustedCloseV.isSome ∧ e.2.volumeV.isSome) :
    ∃ r, rowOfEntry e = Except.ok r := by
  obtain ⟨h0, h1, h2, h3, h4, h5, h6⟩ := h
  obtain ⟨⟨y, m, d⟩, hy⟩ := Option.isSome_iff_exists.mp h0
  obtain ⟨o, ho⟩ := Option.isSome_iff_exists.mp h1
  obtain ⟨hi, hhi⟩ := Option.isSome_iff_exists.mp h2
  obtain ⟨lo, hlo⟩ := Option.isSome_iff_exists.mp h3
  obtain ⟨cl, hcl⟩ := Option.isSome_iff_exists.mp h4
  obtain ⟨ac, hac⟩ := Option.isSome_iff_exists.mp h5
  obtain ⟨vo, hvo⟩ := Option.isSome_iff_exists.mp h6
  refine ⟨⟨isoDate y m d, o, hi, lo, cl, ac, vo⟩, ?_⟩
  simp [rowOfEntry, hy, ho, hhi, hlo, hcl, hac, hvo]

theorem rowsOfEntries_total :
    ∀ (l : List (String × DayData)), SeriesWF l →
      ∃ rows, rowsOfEntries l = Except.ok rows := by
  intro l
  induction l with
  | nil => intro _; exact ⟨[], rfl⟩
  | cons e es ih =>
    intro hwf
    obtain ⟨r, hr⟩ := rowOfEntry_total e (hwf e (List.mem_cons_self e es))
    obtain ⟨rs, hrs⟩ := ih (fun x hx => hwf x (List.mem_cons_of_mem e hx))
    exact ⟨r :: rs, by simp [rowsOfEntries, hr, hrs]⟩

/- Claims. -/

theorem fetchA_ok_inv (symbol : String) (status : Nat) (em : Option String)
    (entries : List (String × DayData)) (fs fs' : FS) (rows : List RowA)
    (h : fetchA symbol ⟨status, some ⟨em, some entries⟩⟩ fs = (fs', Except.ok rows)) :
    rowsOfEntries (sortDescA entries) = Except.ok rows ∧ fs' = some (csvDocA rows) := by
  by_cases hst : 400 ≤ status
  · simp [fetchA, hst] at h
  · dsimp only [fetchA] at h
    rw [if_neg hst] at h
    cases em with
    | some m => simp at h
    | none =>
      cases hre : rowsOfEntries (sortDescA entries) with
      | error ex => rw [hre] at h; simp at h
      | ok rows2 =>
        rw [hre] at h
        simp only [Prod.mk.injEq, Except.ok.injEq] at h
        obtain ⟨h1, h2⟩ := h
        subst h2
        exact ⟨rfl, h1.symm⟩

/-- Claim C1: for every valid Provider A response (HTTP success, no
error-message field, time series present) on which the fetch succeeds,
the written CSV holds exactly one data row per date key — the rows are
in bijection (Forall₂ plus a permutation back to the items) with the
series entries — and the rows appear in strictly descending lexical
order of the originating date-key strings. -/
theorem claimC1 (symbol : String) (status : Nat) (em : Option String)
    (entries : List (String × DayData)) (fs fs' : FS) (rows : List RowA)
    (hnd : (entries.map Prod.fst).Nodup)
    (h : fetchA symbol ⟨status, some ⟨em, some entries⟩⟩ fs = (fs', Except.ok rows)) :
    rows.length = entries.length ∧
    List.Forall₂ (fun e r => rowOfEntry e = Except.ok r) (sortDescA entries) rows ∧
    (sortDescA entries).Perm entries ∧
    ((sortDescA entries).map Prod.fst).Pairwise (fun a b => strLT b a) ∧
    fs' = some (csvDocA rows) := by
  obtain ⟨hrows, hfs⟩ := fetchA_ok_inv symbol status em entries fs fs' rows h
  have hperm : (sortDescA entries).Perm entries := List.perm_insertionSort keyGE entries
  have hfa := rowsOfEntries_forall₂ (sortDescA entries) rows hrows
  have hlen : rows.length = entries.length := by
    rw [← hfa.length_eq]
    exact hperm.length_eq
  have hsorted : List.Pairwise keyGE (sortDescA entries) :=
    List.sorted_insertionSort keyGE entries
  have hndkeys : ((sortDescA entries).map Prod.fst).Nodup :=
    ((hperm.map Prod.fst).nodup_iff).mpr hnd
  have hnd' : List.Pairwise (fun a b : String × DayData => a.1 ≠ b.1) (sortDescA entries) :=
    (List.pairwise_map).mp hndkeys
  have hlt : List.Pairwise (fun a b : String × DayData => strLT b.1 a.1) (sortDescA entries) := by
    have hand := hsorted.and hnd'
    refine hand.imp ?_
    intro a b hab
    by_cases h : charsLT b.1.data a.1.data = true
    · exact h
    · have h' : charsLT b.1.data a.1.data = false := by simpa using h
      have heq := charsLT_eq_of_not _ _ hab.1 h'
      have hkey : a.1 = b.1 := by
        rw [← string_mk_data a.1, ← string_mk_data b.1, heq]
      exact absurd hkey hab.2
  exact ⟨hlen, hfa, hperm, (List.pairwise_map).mpr hlt, hfs⟩

def c1Day1 : DayData := ⟨some "o1", some "h1", some "l1", some "c1", some "a1", some "v1"⟩

def c1Day2 : DayData := ⟨some "o2", some "h2", some "l2", some "c2", some "a2", some "v2"⟩

def c1Entries : List (String × DayData) := [("2024-01-02", c1Day1), ("2024-01-03", c1Day2)]

def c1Rows : List RowA :=
  [⟨"2024-01-03", "o2", "h2", "l2", "c2", "a2", "v2"⟩,
   ⟨"2024-01-02", "o1", "h1", "l1", "c1", "a1", "v1"⟩]

theorem claimC1_witness :
    c1Rows.length = c1Entries.length ∧
    List.Forall₂ (fun e r => rowOfEntry e = Except.ok r) (sortDescA c1Entries) c1Rows ∧
    (sortDescA c1Entries).Perm c1Entries ∧
    ((sortDescA c1Entries).map Prod.fst).Pairwise (fun a b => strLT b a) ∧
    some (csvDocA c1Rows) = some (csvDocA c1Rows) :=
  claimC1 "IBM" 200 none c1Entries none (some (csvDocA c1Rows)) c1Rows (by decide) (by rfl)

theorem keptRecord_none_of_null (e : EntryB)
    (h : pyGet e.symbol = JVal.null ∨ pyGet e.regularMarketPrice = JVal.null) :
    keptRecord e = none := by
  simp [keptRecord, procEntry, if_pos h]

theorem keptRecord_fields (e : EntryB) (r : RecordB) (h : keptRecord e = some r) :
    r.symbol = pyGet e.symbol ∧
    pyFloat (pyGet e.regularMarketPrice) = Except.ok r.price ∧
    r.currency = (if pyTruthy (pyGet e.currency) then pyGet e.currency else JVal.str "") ∧
    r.timestamp = (if pyTruthy (pyGet e.regularMarketTime)
      then (pyFromTimestamp (pyGet e.regularMarketTime)).toOption else none) := by
  by_cases hguard : pyGet e.symbol = JVal.null ∨ pyGet e.regularMarketPrice = JVal.null
  · rw [keptRecord_none_of_null e hguard] at h
    exact absurd h (by simp)
  · cases hpf : pyFloat (pyGet e.regularMarketPrice) with
    | error ex =>
      have hpe : procEntry e = Except.error ex := by
        simp [procEntry, hguard, hpf]
      simp [keptRecord, hpe] at h
    | ok p =>
      by_cases htr : pyTruthy (pyGet e.regularMarketTime)
      · cases hft : pyFromTimestamp (pyGet e.regularMarketTime) with
        | error ex =>
          have hpe : procEntry e = Except.error ex := by
            simp [procEntry, hguard, hpf, htr, hft, Except.map]
          simp [keptRecord, hpe] at h
        | ok dt =>
          have hpe : procEntry e = Except.ok (some ⟨pyGet e.symbol, p,
              (if pyTruthy (pyGet e.currency) then pyGet e.currency else JVal.str ""),
              some dt⟩) := by
            simp [procEntry, hguard, hpf, htr, hft, Except.map]
          rw [keptRecord, hpe] at h
          simp only [Option.some.injEq] at h
          rw [← h]
          refine ⟨rfl, hpf.symm ▸ rfl, rfl, ?_⟩
          simp [htr, hft, Except.toOption]
      · have hpe : procEntry e = Except.ok (some ⟨pyGet e.symbol, p,
            (if pyTruthy (pyGet e.currency) then pyGet e.currency else JVal.str ""),
            none⟩) := by
          simp [procEntry, hguard, hpf, htr]
        rw [keptRecord, hpe] at h
        simp only [Option.some.injEq] at h
        rw [← h]
        refine ⟨rfl, hpf.symm ▸ rfl, rfl, ?_⟩
        rw [if_neg htr]

/-- Claim C2: whenever Provider B's fetch_stock_prices returns, its
result is exactly the in-order filter-map of the quoteResponse.result
list of the (status 200, JSON-decoded) response: entries with a missing
or null symbol or price are skipped, and every kept entry carries the
float-coerced price, the currency defaulted to the empty string, and
the epoch converted to a date-time or left absent; order follows the
response, which is the only list the loop walks. -/
theorem claimC2 (symbols : List String) (net : NetB) (out : List RecordB)
    (h : (fetchB symbols net).1 = Except.ok out) :
    (∃ payload, net = NetB.resp 200 (some payload) ∧
      out = (resultOf payload).filterMap keptRecord) ∧
    (∀ e : EntryB, (pyGet e.symbol = JVal.null ∨ pyGet e.regularMarketPrice = JVal.null) →
      keptRecord e = none) ∧
    (∀ (e : EntryB) (r : RecordB), keptRecord e = some r →
      r.symbol = pyGet e.symbol ∧
      pyFloat (pyGet e.regularMarketPrice) = Except.ok r.price ∧
      r.currency = (if pyTruthy (pyGet e.currency) then pyGet e.currency else JVal.str "") ∧
      r.timestamp = (if pyTruthy (pyGet e.regularMarketTime)
        then (pyFromTimestamp (pyGet e.regularMarketTime)).toOption else none)) := by
  refine ⟨?_, keptRecord_none_of_null, keptRecord_fields⟩
  by_cases hns : normaliseSymbols symbols = []
  · simp [fetchB, hns] at h
  · cases net with
    | urlError => simp [fetchB, hns] at h
    | resp status body =>
      by_cases hst : status = 200
      · subst hst
        cases body with
        | none => simp [fetchB, hns] at h
        | some payload =>
          have hpe : processEntries (resultOf payload) = Except.ok out := by
            simpa [fetchB, hns] using h
          exact ⟨payload, rfl, processEntries_ok _ _ hpe⟩
      · simp [fetchB, hns, hst] at h

def c2Payload : PayloadB :=
  ⟨some ⟨some [⟨some (JVal.str "AAPL"), some (JVal.num (150.2 : ℚ)),
    some (JVal.str "USD"), some (JVal.num 1700000000)⟩]⟩⟩

def c2Net : NetB := NetB.resp 200 (some c2Payload)

def c2Out : List RecordB :=
  [⟨JVal.str "AAPL", (150.2 : ℚ), JVal.str "USD", some ⟨(1700000000 : ℚ)⟩⟩]

theorem claimC2_witness :
    ((∃ payload, c2Net = NetB.resp 200 (some payload) ∧
       c2Out = (resultOf payload).filterMap keptRecord) ∧
     (∀ e : EntryB, (pyGet e.symbol = JVal.null ∨ pyGet e.regularMarketPrice = JVal.null) →
       keptRecord e = none) ∧
     (∀ (e : EntryB) (r : RecordB), keptRecord e = some r →
       r.symbol = pyGet e.symbol ∧
       pyFloat (pyGet e.regularMarketPrice) = Except.ok r.price ∧
       r.currency = (if pyTruthy (pyGet e.currency) then pyGet e.currency else JVal.str "") ∧
       r.timestamp = (if pyTruthy (pyGet e.regularMarketTime)
         then (pyFromTimestamp (pyGet e.regularMarketTime)).toOption else none))) ∧
    (fetchB [" aapl"] c2Net).1 = Except.ok c2Out :=
  ⟨claimC2 [" aapl"] c2Net c2Out (by rfl), by rfl⟩

/-- Claim C3: Provider B symbol normalisation trims, upper-cases, drops
empties and collapses case-insensitive duplicates keeping first-seen
order (every output element is the normalised form of some input, is
nonempty, and the output has no duplicates); it is idempotent; and the
spec's example normalises as stated. -/
theorem claimC3 :
    (∀ l : List String, normaliseSymbols (normaliseSymbols l) = normaliseSymbols l) ∧
    (∀ l : List String, (normaliseSymbols l).Nodup) ∧
    (∀ (l : List String) (x : String), x ∈ normaliseSymbols l →
      (∃ raw ∈ l, x = normOne raw) ∧ x ≠ "") ∧
    normaliseSymbols ["aapl", "AAPL", " msft "] = ["AAPL", "MSFT"] := by
  refine ⟨normaliseSymbols_idem, fun l => normAux_nodup l [], ?_, by rfl⟩
  intro l x hx
  obtain ⟨hex, hne, _⟩ := normAux_mem l [] x hx
  exact ⟨hex, hne⟩

/-- Claim C4: whenever every provided symbol is blank after
normalisation (which covers the empty list vacuously), Provider B's
fetch_stock_prices raises ValueError and the network request is never
issued, whatever the network would have answered. -/
theorem claimC4 (symbols : List String) (net : NetB)
    (h : ∀ s ∈ symbols, normOne s = "") :
    fetchB symbols net = (Except.error PyExn.valueError, false) := by
  have hnil : normaliseSymbols symbols = [] := normAux_blank symbols [] h
  simp [fetchB, hnil]

theorem claimC4_witness :
    fetchB ["", "  "] NetB.urlError = (Except.error PyExn.valueError, false) :=
  claimC4 ["", "  "] NetB.urlError (by decide)

def c5Day : DayData :=
  ⟨some "188.0", some "190.0", some "187.0", some "189.0", some "189.0", some "1000"⟩

/-- Claim C5 counterexample: a success-status response with no error
field and the series key present, whose series holds the key
"2024-13-01", makes fetch_stock_prices raise ValueError (from strptime),
which is not a StockPriceFetchError of any message — so not every
escaping failure is of the single error kind. -/
theorem claimC5_counterexample :
    (fetchA "X" ⟨200, some ⟨none, some [("2024-13-01", c5Day)]⟩⟩ none).2 =
      Except.error PyExn.valueError ∧
    ∀ m : String, PyExn.valueError ≠ PyExn.stockPriceFetchError m :=
  ⟨by rfl, fun _ h => PyExn.noConfusion h⟩

/-- Claim C5 (amended): for responses whose JSON decodes and whose time
series, when present, is well-formed (parsable %Y-%m-%d keys, all six
fields), fetch_stock_prices fails exactly for the three causes — bad
HTTP status, an "Error Message" field, or a missing series key — and
every such failure is a StockPriceFetchError. -/
theorem claimC5 (symbol : String) (status : Nat) (em : Option String)
    (ts : Option (List (String × DayData))) (fs : FS)
    (hwf : ∀ entries, ts = some entries → SeriesWF entries) :
    (∀ ex, (fetchA symbol ⟨status, some ⟨em, ts⟩⟩ fs).2 = Except.error ex →
      ∃ m, ex = PyExn.stockPriceFetchError m) ∧
    ((∃ ex, (fetchA symbol ⟨status, some ⟨em, ts⟩⟩ fs).2 = Except.error ex) ↔
      (400 ≤ status ∨ em.isSome ∨ ts = none)) := by
  by_cases hst : 400 ≤ status
  · have hval : (fetchA symbol ⟨status, some ⟨em, ts⟩⟩ fs).2 =
        Except.error (PyExn.stockPriceFetchError
          ("Failed to fetch stock prices for " ++ symbol ++ ": HTTP " ++ toString status)) := by
      simp [fetchA, hst]
    constructor
    · intro ex hex
      rw [hval] at hex
      simp only [Except.error.injEq] at hex
      exact ⟨_, hex.symm⟩
    · exact ⟨fun _ => Or.inl hst, fun _ => ⟨_, hval⟩⟩
  · cases em with
    | some m =>
      have hval : (fetchA symbol ⟨status, some ⟨some m, ts⟩⟩ fs).2 =
          Except.error (PyExn.stockPriceFetchError ("API error for " ++ symbol ++ ": " ++ m)) := by
        simp [fetchA, hst]
      constructor
      · intro ex hex
        rw [hval] at hex
        simp only [Except.error.injEq] at hex
        exact ⟨_, hex.symm⟩
      · exact ⟨fun _ => Or.inr (Or.inl (by simp)), fun _ => ⟨_, hval⟩⟩
    | none =>
      cases ts with
      | none =>
        have hval : (fetchA symbol ⟨status, some ⟨none, none⟩⟩ fs).2 =
            Except.error (PyExn.stockPriceFetchError
              "Unexpected response structure. Missing 'Time Series (Daily)' key.") := by
          simp [fetchA, hst]
        constructor
        · intro ex hex
          rw [hval] at hex
          simp only [Except.error.injEq] at hex
          exact ⟨_, hex.symm⟩
        · exact ⟨fun _ => Or.inr (Or.inr rfl), fun _ => ⟨_, hval⟩⟩
      | some entries =>
        have hwfs : SeriesWF (sortDescA entries) := by
          intro e he
          exact hwf entries rfl e ((List.perm_insertionSort keyGE entries).mem_iff.mp he)
        obtain ⟨rows, hrows⟩ := rowsOfEntries_total (sortDescA entries) hwfs
        have hval : (fetchA symbol ⟨status, some ⟨none, some entries⟩⟩ fs).2 =
            Except.ok rows := by
          simp [fetchA, hst, hrows]
        constructor
        · intro ex hex
          rw [hval] at hex
          exact absurd hex (by simp)
        · constructor
          · intro hex
            obtain ⟨ex, hex⟩ := hex
            rw [hval] at hex
            exact absurd hex (by simp)
          · intro hcaus
            rcases hcaus with hc | hc | hc
            · exact absurd hc hst
            · exact absurd hc (by simp)
            · exact absurd hc (by simp)

def c5wDay : DayData := ⟨some "1", some "2", some "3", some "4", some "5", some "6"⟩

theorem claimC5_witness :
    (∀ ex, (fetchA "X" ⟨200, some ⟨some "boom", some [("2024-01-02", c5wDay)]⟩⟩ none).2 =
        Except.error ex → ∃ m, ex = PyExn.stockPriceFetchError m) ∧
    ((∃ ex, (fetchA "X" ⟨200, some ⟨some "boom", some [("2024-01-02", c5wDay)]⟩⟩ none).2 =
        Except.error ex) ↔
      (400 ≤ 200 ∨ (some "boom").isSome ∨
        (some [("2024-01-02", c5wDay)] : Option (List (String × DayData))) = none)) :=
  claimC5 "X" 200 (some "boom") (some [("2024-01-02", c5wDay)]) none
    (by
      intro entries he
      injection he with h2
      subst h2
      intro e he2
      fin_cases he2
      decide)

def c6Payload : PayloadB :=
  ⟨some ⟨some [⟨some (JVal.str "A"), some (JVal.num 1), none, none⟩,
    ⟨some (JVal.str "B"), some (JVal.str "oops"), none, none⟩]⟩⟩

/-- Claim C6 counterexample: a response whose second entry has a present
but non-float-coercible price fails the whole fetch_stock_prices call
with ValueError, even though its first entry is perfectly well formed —
a malformed entry is not always silently dropped. -/
theorem claimC6_counterexample :
    (fetchB ["AAPL"] (NetB.resp 200 (some c6Payload))).1 = Except.error PyExn.valueError ∧
    procEntry ⟨some (JVal.str "A"), some (JVal.num 1), none, none⟩ =
      Except.ok (some ⟨JVal.str "A", 1, JVal.str "", none⟩) :=
  ⟨by rfl, by rfl⟩

/-- Claim C6 (amended): an entry that is malformed only in ways the loop
tolerates (missing or null symbol or price, and otherwise processable
fields) never fails the call: it is silently dropped and the remaining
entries are still returned; an entry whose present price or truthy
timestamp cannot be coerced raises instead. -/
theorem claimC6 (symbols : List String) (payload : PayloadB)
    (hsym : normaliseSymbols symbols ≠ [])
    (h : ∀ e ∈ resultOf payload, ∃ v, procEntry e = Except.ok v) :
    (fetchB symbols (NetB.resp 200 (some payload))).1 =
      Except.ok ((resultOf payload).filterMap keptRecord) ∧
    (∀ e ∈ resultOf payload,
      (pyGet e.symbol = JVal.null ∨ pyGet e.regularMarketPrice = JVal.null) →
      keptRecord e = none) ∧
    (∀ e ∈ resultOf payload, ∀ r, procEntry e = Except.ok (some r) →
      r ∈ (resultOf payload).filterMap keptRecord) := by
  refine ⟨?_, fun e _ hn => keptRecord_none_of_null e hn, ?_⟩
  · have hpe := processEntries_total (resultOf payload) h
    simp [fetchB, hsym, hpe]
  · intro e he r hr
    exact List.mem_filterMap.mpr ⟨e, he, by simp [keptRecord, hr]⟩

def c6wPayload : PayloadB :=
  ⟨some ⟨some [⟨none, some (JVal.num 5), none, none⟩,
    ⟨some (JVal.str "GOOD"), some (JVal.num 2), none, none⟩]⟩⟩

theorem claimC6_witness :
    ((fetchB ["AAPL"] (NetB.resp 200 (some c6wPayload))).1 =
      Except.ok ((resultOf c6wPayload).filterMap keptRecord) ∧
     (∀ e ∈ resultOf c6wPayload,
       (pyGet e.symbol = JVal.null ∨ pyGet e.regularMarketPrice = JVal.null) →
       keptRecord e = none) ∧
     (∀ e ∈ resultOf c6wPayload, ∀ r, procEntry e = Except.ok (some r) →
       r ∈ (resultOf c6wPayload).filterMap keptRecord)) ∧
    (resultOf c6wPayload).filterMap keptRecord =
      [⟨JVal.str "GOOD", 2, JVal.str "", none⟩] :=
  ⟨claimC6 ["AAPL"] c6wPayload (by decide)
    (by
      intro e he
      fin_cases he
      · exact ⟨none, rfl⟩
      · exact ⟨some ⟨JVal.str "GOOD", 2, JVal.str "", none⟩, rfl⟩),
   by rfl⟩

/-- Claim C7: on any failure of either pipeline the output file is left
untouched — a failing Provider A call writes nothing (the file is
opened only after all validation and row building succeed), and in
Provider B's fetch_and_save_stock_prices the save step never runs when
the fetch step fails. -/
theorem claimC7 :
    (∀ (symbol : String) (resp : RespA) (fs : FS) (ex : PyExn),
      (fetchA symbol resp fs).2 = Except.error ex → (fetchA symbol resp fs).1 = fs) ∧
    (∀ (symbols : List String) (net : NetB) (fs : FS) (ex : PyExn),
      (fetchB symbols net).1 = Except.error ex →
      fetchAndSaveRun symbols net fs = (fs, Except.error ex)) := by
  constructor
  · intro symbol resp fs ex h
    by_cases hst : 400 ≤ resp.status
    · simp [fetchA, hst]
    · cases hb : resp.body with
      | none => simp [fetchA, hst, hb]
      | some payload =>
        cases hem : payload.errorMessage with
        | some m => simp [fetchA, hst, hb, hem]
        | none =>
          cases hts : payload.timeSeries with
          | none => simp [fetchA, hst, hb, hem, hts]
          | some entries =>
            cases hre : rowsOfEntries (sortDescA entries) with
            | error ex2 => simp [fetchA, hst, hb, hem, hts, hre]
            | ok rows => simp [fetchA, hst, hb, hem, hts, hre] at h
  · intro symbols net fs ex h
    cases hfb : fetchB symbols net with
    | mk res req =>
      cases res with
      | error e2 =>
        rw [hfb] at h
        simp only at h
        injection h with h3
        subst h3
        simp [fetchAndSaveRun, hfb]
      | ok prices =>
        rw [hfb] at h
        simp at h

theorem claimC7_witness :
    (fetchA "X" ⟨500, none⟩ none).1 = none ∧
    fetchAndSaveRun [""] NetB.urlError none = (none, Except.error PyExn.valueError) :=
  ⟨claimC7.1 "X" ⟨500, none⟩ none
    (PyExn.stockPriceFetchError "Failed to fetch stock prices for X: HTTP 500") (by rfl),
   claimC7.2 [""] NetB.urlError none PyExn.valueError (by rfl)⟩

/-- Claim C8: writing any list of price records with save_prices_to_csv
and parsing the produced CSV recovers the header plus exactly one row
per record in order; the symbol and currency cells are the very string
values of the record, the price cell is the price's serialized text,
which parses back to the same rational value, and the timestamp cell is
the serialized date-time text, or empty when the timestamp is absent. -/
theorem claimC8 (prices : List RecordB) :
    parseCsv (saveDoc prices) = headerB :: prices.map recordCells ∧
    (∀ r : RecordB, readRat? (ratStr r.price).data = some r.price) ∧
    (∀ (r : RecordB) (s c : String), r.symbol = JVal.str s → r.currency = JVal.str c →
      recordCells r = [s, ratStr r.price, c, tsCell r.timestamp]) := by
  refine ⟨parseCsv_csvDoc (headerB :: prices.map recordCells), ?_, ?_⟩
  · intro r
    exact readRat?_ratChars r.price
  · intro r s c hs hc
    simp [recordCells, hs, hc, csvCellOfVal]

def c8Prices : List RecordB :=
  [⟨JVal.str "AA,PL", mkRat 3 2, JVal.str "US\"D", some ⟨0⟩⟩,
   ⟨JVal.str "", (5 : ℚ), JVal.str "", none⟩]

theorem claimC8_witness :
    parseCsv (saveDoc c8Prices) = headerB :: c8Prices.map recordCells ∧
    readRat? (ratStr (mkRat 3 2)).data = some (mkRat 3 2) ∧
    recordCells ⟨JVal.str "AA,PL", mkRat 3 2, JVal.str "US\"D", some ⟨0⟩⟩ =
      ["AA,PL", ratStr (mkRat 3 2), "US\"D", tsCell (some ⟨0⟩)] ∧
    parseCsv (saveDoc c8Prices) =
      [["symbol", "price", "currency", "timestamp"],
       ["AA,PL", "3/2", "US\"D", "0/1"],
       ["", "5/1", "", ""]] :=
  ⟨(claimC8 c8Prices).1,
   (claimC8 c8Prices).2.1 ⟨JVal.str "x", mkRat 3 2, JVal.str "", none⟩,
   (claimC8 c8Prices).2.2 ⟨JVal.str "AA,PL", mkRat 3 2, JVal.str "US\"D", some ⟨0⟩⟩
     "AA,PL" "US\"D" rfl rfl,
   by rfl⟩

/-- Claim C9: Provider B drops an entry exactly when its symbol or price
is Python None (the field is absent or JSON null): the check is an
is-None test, not a falsiness test, so an entry with price 0 and an
empty-string symbol is kept and produces a record. -/
theorem claimC9 :
    (∀ e : EntryB, procEntry e = Except.ok none ↔
      (pyGet e.symbol = JVal.null ∨ pyGet e.regularMarketPrice = JVal.null)) ∧
    procEntry ⟨some (JVal.str ""), some (JVal.num 0), none, none⟩ =
      Except.ok (some ⟨JVal.str "", 0, JVal.str "", none⟩) := by
  constructor
  · intro e
    constructor
    · intro h
      by_contra hno
      cases hpf : pyFloat (pyGet e.regularMarketPrice) with
      | error ex =>
        have hpe : procEntry e = Except.error ex := by
          simp [procEntry, hno, hpf]
        rw [hpe] at h
        exact absurd h (by simp)
      | ok p =>
        by_cases htr : pyTruthy (pyGet e.regularMarketTime)
        · cases hft : pyFromTimestamp (pyGet e.regularMarketTime) with
          | error ex =>
            have hpe : procEntry e = Except.error ex := by
              simp [procEntry, hno, hpf, htr, hft, Except.map]
            rw [hpe] at h
            exact absurd h (by simp)
          | ok dt =>
            have hpe : procEntry e = Except.ok (some ⟨pyGet e.symbol, p,
                (if pyTruthy (pyGet e.currency) then pyGet e.currency else JVal.str ""),
                some dt⟩) := by
              simp [procEntry, hno, hpf, htr, hft, Except.map]
            rw [hpe] at h
            exact absurd h (by simp)
        · have hpe : procEntry e = Except.ok (some ⟨pyGet e.symbol, p,
              (if pyTruthy (pyGet e.currency) then pyGet e.currency else JVal.str ""),
              none⟩) := by
            simp [procEntry, hno, hpf, htr]
          rw [hpe] at h
          exact absurd h (by simp)
    · intro hn
      simp [procEntry, hn]
  · rfl

/-- Claim C10: an entry whose regularMarketTime is the number 0 (the
Unix epoch itself) yields a record with an absent timestamp, exactly as
if the field were missing, because the conversion is guarded by a
truthiness test on the epoch value. -/
theorem claimC10 (e : EntryB) (r : RecordB)
    (ht : pyGet e.regularMarketTime = JVal.num 0)
    (h : procEntry e = Except.ok (some r)) :
    r.timestamp = none := by
  have htr : pyTruthy (pyGet e.regularMarketTime) = false := by
    rw [ht]
    decide
  by_cases hguard : pyGet e.symbol = JVal.null ∨ pyGet e.regularMarketPrice = JVal.null
  · rw [show procEntry e = Except.ok none from by simp [procEntry, hguard]] at h
    exact absurd h (by simp)
  · cases hpf : pyFloat (pyGet e.regularMarketPrice) with
    | error ex =>
      rw [show procEntry e = Except.error ex from by simp [procEntry, hguard, hpf]] at h
      exact absurd h (by simp)
    | ok p =>
      have hpe : procEntry e = Except.ok (some ⟨pyGet e.symbol, p,
          (if pyTruthy (pyGet e.currency) then pyGet e.currency else JVal.str ""), none⟩) := by
        simp [procEntry, hguard, hpf, htr]
      rw [hpe] at h
      simp only [Except.ok.injEq, Option.some.injEq] at h
      rw [← h]

theorem claimC10_witness :
    (⟨JVal.str "A", 1, JVal.str "", none⟩ : RecordB).timestamp = none :=
  claimC10 ⟨some (JVal.str "A"), some (JVal.num 1), none, some (JVal.num 0)⟩
    ⟨JVal.str "A", 1, JVal.str "", none⟩ rfl (by rfl)
